import Mathlib

/-!
Shallow embedding of the script-separation core of `lyrics_processor.py`
(class `LyricsProcessor`): the metadata-line classifier `_is_metadata_line`,
the language separator `_separate_languages`, and the line driver
`parse_bilingual_lyrics`, together with theorems about them.

Python strings are modelled as `List Char` (one entry per Unicode code
point).  Python builtins that depend on full Unicode tables are modelled by
explicit character-range predicates covering the ranges relevant to lyrics
text; each such modelling choice is documented on the definition.
-/

set_option autoImplicit false

namespace LyricsProc

abbrev Str := List Char

/-! ### Character classes (Unicode ranges used by the source) -/

/-- Hiragana block U+3040..U+309F, from the regex `[぀-ゟ]`. -/
def isHiragana (c : Char) : Bool := 0x3040 ≤ c.toNat && c.toNat ≤ 0x309f

/-- Katakana block U+30A0..U+30FF, from the regex `[゠-ヿ]`. -/
def isKatakana (c : Char) : Bool := 0x30a0 ≤ c.toNat && c.toNat ≤ 0x30ff

/-- Kana = hiragana or katakana (the source tests the two ranges together
in pass 1 and in the per-word checks). -/
def isKana (c : Char) : Bool := isHiragana c || isKatakana c

/-- CJK Unified Ideographs U+4E00..U+9FFF, from `[一-鿿]`. -/
def isHan (c : Char) : Bool := 0x4e00 ≤ c.toNat && c.toNat ≤ 0x9fff

/-- ASCII letter: models `char.isalpha() and ord(char) < 128`, which for
code points below 128 holds exactly on `[a-zA-Z]`. -/
def isAsciiAlpha (c : Char) : Bool :=
  (0x41 ≤ c.toNat && c.toNat ≤ 0x5a) || (0x61 ≤ c.toNat && c.toNat ≤ 0x7a)

/-- ASCII decimal digit `0`..`9`. -/
def isAsciiDigit (c : Char) : Bool := 0x30 ≤ c.toNat && c.toNat ≤ 0x39

/-- Model of Python `str.isdigit()` (and of `\d` in the regexes), which is
not restricted to ASCII: it holds on every Unicode decimal digit.  The
model covers the decimal-digit ranges occurring in lyrics text: ASCII
`0`..`9` and the fullwidth digits U+FF10..U+FF19. -/
def pyIsDigit (c : Char) : Bool :=
  isAsciiDigit c || (0xff10 ≤ c.toNat && c.toNat ≤ 0xff19)

/-- The ASCII space character U+0020 (the only character the source
compares against `' '` in the word split and the neighbour scans). -/
def isSpaceChar (c : Char) : Bool := c.toNat = 0x20

/-- Model of Python whitespace, as used by `str.strip()` and the regex
`\s`: ASCII whitespace (space, tab, newline, carriage return, vertical
tab, form feed) plus the no-break space U+00A0 and the ideographic space
U+3000. -/
def pyIsSpace (c : Char) : Bool :=
  c.toNat = 0x20 || c.toNat = 0x9 || c.toNat = 0xa || c.toNat = 0xd ||
  c.toNat = 0xb || c.toNat = 0xc || c.toNat = 0xa0 || c.toNat = 0x3000

/-- Negation of `pyIsSpace`: the characters the conservation property
(claim C5) counts. -/
def isNonWs (c : Char) : Bool := !(pyIsSpace c)

/-! ### Python string helpers: `strip`, `re.sub(r'\s+', ' ', ...)`, `split` -/

/-- Python `str.strip()`: drop leading and trailing whitespace. -/
def pyStrip (s : Str) : Str :=
  ((s.dropWhile pyIsSpace).reverse.dropWhile pyIsSpace).reverse

/-- Collapse adjacent ASCII spaces: helper for `collapseWs`. -/
def squeeze : Str → Str
  | [] => []
  | [c] => [c]
  | c :: d :: cs =>
    if isSpaceChar c ∧ isSpaceChar d then squeeze (d :: cs)
    else c :: squeeze (d :: cs)

/-- Model of `re.sub(r'\s+', ' ', s)`: every maximal run of whitespace
becomes a single ASCII space.  Implemented by first mapping each
whitespace character to `' '` and then collapsing adjacent spaces, which
replaces each maximal whitespace run by one space. -/
def collapseWs (s : Str) : Str :=
  squeeze (s.map (fun c => if pyIsSpace c then ' ' else c))

/-- Python `s.split(sep)` for a one-character separator: consecutive
separators yield empty fields, and the empty string splits to `[""]`. -/
def pySplit (sep : Char) : Str → List Str
  | [] => [[]]
  | c :: cs =>
    if c = sep then [] :: pySplit sep cs
    else
      match pySplit sep cs with
      | [] => [[c]]
      | w :: ws => (c :: w) :: ws

/-- Rejoin the fields of a single-space split with one space between
consecutive fields (`' '.join`). -/
def flattenWs : List Str → Str
  | [] => []
  | [w] => w
  | w :: ws => w ++ ' ' :: flattenWs ws

/-! ### `_is_metadata_line` -/

/-- The eight LRC header tag names of the `metadata_patterns` list
(`[by:...]`, `[ar:...]`, `[ti:...]`, `[al:...]`, `[offset:...]`,
`[re:...]`, `[ve:...]`, `[length:...]`), exactly as written in the
source: all lowercase, compiled without `re.IGNORECASE`. -/
def lrcTags : List Str :=
  ["by".data, "ar".data, "ti".data, "al".data,
   "offset".data, "re".data, "ve".data, "length".data]

/-- Match of `re.match(r'^\[tag:.*\]$', s)` on an already-stripped line:
the line starts with `[tag:`, ends with `]` strictly after that opening,
and the span matched by `.*` contains no newline (`.` does not match
`\n`; `$` adds nothing because a stripped line cannot end in `\n`). -/
def headerMatch (tag : Str) (s : Str) : Bool :=
  let pre : Str := '[' :: tag ++ [':']
  pre.isPrefixOf s && pre.length < s.length && s.getLast? = some ']' &&
    ((s.drop pre.length).dropLast.all fun c => c ≠ '\n')

/-- Disjunction over the eight LRC header patterns. -/
def isLrcHeader (s : Str) : Bool := lrcTags.any fun tg => headerMatch tg s

/-- Match of the leading-timestamp regex `^(\[\d{2}:\d{2}\.\d{2,3}\])`,
returning the matched tag.  `\d{2,3}` is greedy: three digits are
preferred when the third digit is followed by `]`. -/
def matchTimestamp : Str → Option Str
  | '[' :: a :: b :: ':' :: d :: e :: '.' :: f :: g :: rest =>
    if pyIsDigit a ∧ pyIsDigit b ∧ pyIsDigit d ∧ pyIsDigit e ∧
        pyIsDigit f ∧ pyIsDigit g then
      match rest with
      | x :: ']' :: _ =>
        if pyIsDigit x then
          some ('[' :: a :: b :: ':' :: d :: e :: '.' :: f :: g :: x :: [']'])
        else if x = ']' then
          some ('[' :: a :: b :: ':' :: d :: e :: '.' :: f :: g :: [']'])
        else none
      | ']' :: _ =>
        some ('[' :: a :: b :: ':' :: d :: e :: '.' :: f :: g :: [']'])
      | _ => none
    else none
  | _ => none

/-- The ten credit-label prefixes of `metadata_content_patterns`
(作词, 作曲, 编曲, 制作人, 演唱, 歌手, 专辑, 发行, 词, 曲). -/
def creditLabels : List Str :=
  ["作词".data, "作曲".data, "编曲".data, "制作人".data, "演唱".data,
   "歌手".data, "专辑".data, "发行".data, "词".data, "曲".data]

/-- Match of one credit pattern `^LABEL\s*[:：]` against the content: the
label, then optional whitespace, then an ASCII or fullwidth colon. -/
def creditMatch1 (p : Str) (s : Str) : Bool :=
  p.isPrefixOf s &&
    match (s.drop p.length).dropWhile pyIsSpace with
    | c :: _ => c = ':' || c = '：'
    | [] => false

/-- Disjunction over the ten credit patterns. -/
def isCreditLine (s : Str) : Bool := creditLabels.any fun p => creditMatch1 p s

/-- `LyricsProcessor._is_metadata_line`: strip the line; true when it
matches an LRC header pattern, or when it carries a leading timestamp and
the stripped remainder matches a credit pattern. -/
def is_metadata_line (line0 : Str) : Bool :=
  if isLrcHeader (pyStrip line0) then true
  else
    match matchTimestamp (pyStrip line0) with
    | some ts => isCreditLine (pyStrip ((pyStrip line0).drop ts.length))
    | none => false

/-! ### `_separate_languages`, Path A (kana present) -/

/-- Per-character classification state of the multi-pass algorithm
(the strings `'unassigned'`, `'japanese'`, `'english'`, `'chinese'`). -/
inductive Assign where
  | unassigned
  | japanese
  | english
  | chinese
deriving DecidableEq

/-- Pass 1: initialise one slot per character; kana characters are
Japanese, everything else starts unassigned. -/
def pass1 (t : Str) : List Assign :=
  t.map fun c => if isKana c then Assign.japanese else Assign.unassigned

/-- Word type of one space-delimited token: any kana makes it Japanese;
a pure-Han token and every other token default to Chinese (the source's
`elif` and `else` branches both yield `'chinese'`). -/
def wordType (w : Str) : Assign :=
  if w.any isKana then Assign.japanese else Assign.chinese

/-- Inner loop of pass 2: for each character of the word, when the
position is in range, the character is Han and the slot is still
unassigned, set the slot to the word type. -/
def assignWordGo (wt : Assign) : Str → Nat → List Assign → List Assign
  | [], _, a => a
  | c :: cs, pos, a =>
    assignWordGo wt cs (pos + 1)
      (if pos < a.length ∧ isHan c ∧ a.get? pos = some Assign.unassigned
       then a.set pos wt else a)

/-- Outer loop of pass 2 over the space-split word list, tracking the
character offset of each word (`current_pos`); after each word the offset
advances by the word length plus one for the boundary space (an empty
word advances by exactly one). -/
def pass2Go : List Str → Nat → List Assign → List Assign
  | [], _, a => a
  | w :: ws, pos, a =>
    pass2Go ws (pos + w.length + 1) (assignWordGo (wordType w) w pos a)

/-- Pass 2: word-level Han disambiguation over `text.split(' ')`. -/
def pass2 (t : Str) (a : List Assign) : List Assign :=
  pass2Go (pySplit ' ' t) 0 a

/-- Pass 3: every still-unassigned ASCII letter becomes English. -/
def pass3 (t : Str) (a : List Assign) : List Assign :=
  (t.zip a).map fun p =>
    if isAsciiAlpha p.1 ∧ p.2 = Assign.unassigned then Assign.english else p.2

/-- The punctuation set of pass 4, from the membership string
`'.,!?;:()[]{}？！。：；，「」"""\x27\x27'` (the quote characters are the
ASCII double quote U+0022 and apostrophe U+0027, written here by code
point). -/
def inPunctA (c : Char) : Bool :=
  c = '.' || c = ',' || c = '!' || c = '?' || c = ';' || c = ':' ||
  c = '(' || c = ')' || c = '[' || c = ']' || c = '{' || c = '}' ||
  c = '？' || c = '！' || c = '。' || c = '：' || c = '；' || c = '，' ||
  c = '「' || c = '」' || c.toNat = 0x22 || c.toNat = 0x27

/-- Japanese corner brackets `「」`. -/
def isJpBracket (c : Char) : Bool := c = '「' || c = '」'

/-- The quote set `'""\x27\x27'` of the English-quote branch: ASCII
double quote and apostrophe. -/
def isQuoteEn (c : Char) : Bool := c.toNat = 0x22 || c.toNat = 0x27

/-- Sentence-final punctuation `'!?。！？'`. -/
def isSentFinal (c : Char) : Bool :=
  c = '!' || c = '?' || c = '。' || c = '！' || c = '？'

/-- Backward scan of pass 4: from position `i - 1` downward, skip ASCII
spaces; return the first position holding a non-space character. -/
def scanPrev (t : Str) : Nat → Option Nat
  | 0 => none
  | j + 1 =>
    match t.get? j with
    | some c => if isSpaceChar c then scanPrev t j else some j
    | none => none

/-- Forward scan of pass 4 (fuelled): from position `j` upward, skip
ASCII spaces; return the first in-range position holding a non-space
character. -/
def scanNextGo (t : Str) : Nat → Nat → Option Nat
  | 0, _ => none
  | fuel + 1, j =>
    match t.get? j with
    | some c => if isSpaceChar c then scanNextGo t fuel (j + 1) else some j
    | none => none

/-- Forward scan from position `i + 1`; `t.length` steps of fuel suffice
because the scan stops at the end of the string. -/
def scanNext (t : Str) (i : Nat) : Option Nat := scanNextGo t t.length (i + 1)

/-- Shared fallback of the punctuation branch: inherit from the nearest
preceding non-space position if one exists (whatever its slot holds, as
the source's truthiness test accepts every string value), else from the
nearest following position when its slot is assigned, else Chinese. -/
def pass4Fallback (t : Str) (a : List Assign) (i : Nat) : Assign :=
  match scanPrev t i with
  | some j => a.getD j Assign.unassigned
  | none =>
    match scanNext t i with
    | some j =>
      if a.get? j ≠ some Assign.unassigned then a.getD j Assign.unassigned
      else Assign.chinese
    | none => Assign.chinese

/-- Value written by pass 4 into a still-unassigned slot `i` holding
character `c`: spaces inherit English then Japanese from either
neighbour, else Chinese; corner brackets are Japanese; ASCII quotes are
English; sentence-final punctuation inherits from the nearest preceding
non-space position, falling back to the shared fallback; other
punctuation uses the fallback; every other character is Chinese. -/
def pass4Value (t : Str) (a : List Assign) (i : Nat) (c : Char) : Assign :=
  if isSpaceChar c then
    if 0 < i ∧ a.get? (i - 1) = some Assign.english then Assign.english
    else if i + 1 < t.length ∧ a.get? (i + 1) = some Assign.english then
      Assign.english
    else if 0 < i ∧ a.get? (i - 1) = some Assign.japanese then
      Assign.japanese
    else if i + 1 < t.length ∧ a.get? (i + 1) = some Assign.japanese then
      Assign.japanese
    else Assign.chinese
  else if inPunctA c then
    if isJpBracket c then Assign.japanese
    else if isQuoteEn c then Assign.english
    else if isSentFinal c then
      match scanPrev t i with
      | some j => a.getD j Assign.unassigned
      | none => pass4Fallback t a i
    else pass4Fallback t a i
  else Assign.chinese

/-- One iteration of the pass-4 loop: when slot `i` is in range and still
unassigned, write the pass-4 value for its character; otherwise leave the
slots unchanged. -/
def pass4Step (t : Str) (a : List Assign) (i : Nat) : List Assign :=
  match t.get? i, a.get? i with
  | some c, some Assign.unassigned => a.set i (pass4Value t a i c)
  | _, _ => a

/-- Left-to-right drive of pass 4 over the remaining positions. -/
def pass4Go (t : Str) : Nat → Nat → List Assign → List Assign
  | 0, _, a => a
  | fuel + 1, i, a => pass4Go t fuel (i + 1) (pass4Step t a i)

/-- Pass 4 over all positions of the text. -/
def pass4 (t : Str) (a : List Assign) : List Assign :=
  pass4Go t t.length 0 a

/-- The fully resolved classification of Path A: passes 1 to 4 in order. -/
def assignA (t : Str) : List Assign :=
  pass4 t (pass3 t (pass2 t (pass1 t)))

/-- Selector of the collection step: keep the character when its slot
holds `v`. -/
def selCat (v : Assign) (p : Char × Assign) : Option Char :=
  if p.2 = v then some p.1 else none

/-- Collection step: the characters whose slot holds `v`, in original
order. -/
def collect (t : Str) (a : List Assign) (v : Assign) : Str :=
  (t.zip a).filterMap (selCat v)

/-- `japanese_text`: collected Japanese characters, whitespace-collapsed
and stripped. -/
def japaneseText (t : Str) : Str :=
  pyStrip (collapseWs (collect t (assignA t) Assign.japanese))

/-- `english_text` of Path A. -/
def englishTextA (t : Str) : Str :=
  pyStrip (collapseWs (collect t (assignA t) Assign.english))

/-- `chinese_text` of Path A. -/
def chineseTextA (t : Str) : Str :=
  pyStrip (collapseWs (collect t (assignA t) Assign.chinese))

/-- First output line of Path A: `' '.join(first_line_parts).strip()`
where the parts are the non-empty ones of Japanese then English text. -/
def joinFirstLine (jp en : Str) : Str :=
  pyStrip (if jp = [] then en else if en = [] then jp else jp ++ ' ' :: en)

/-! ### `_separate_languages`, Path B (no kana, ASCII letters and Han) -/

/-- The Path B punctuation membership string `' \t\n\r.,!?;:\x27"()[]{}'`. -/
def inPunctB (c : Char) : Bool :=
  c = ' ' || c = '\t' || c = '\n' || c = '\r' || c = '.' || c = ',' ||
  c = '!' || c = '?' || c = ';' || c = ':' || c.toNat = 0x27 ||
  c.toNat = 0x22 || c = '(' || c = ')' || c = '[' || c = ']' ||
  c = '{' || c = '}'

/-- The English-side subset `' \x27".,!?()[]'` of the Path B punctuation. -/
def inPunctBEnglish (c : Char) : Bool :=
  c = ' ' || c.toNat = 0x27 || c.toNat = 0x22 || c = '.' || c = ',' ||
  c = '!' || c = '?' || c = '(' || c = ')' || c = '[' || c = ']'

/-- Path B per-character bucket: ASCII letters and digit characters
(Python `isdigit`) are English; Han is Chinese; listed punctuation goes
to English when in the English-side subset, else Chinese; everything
else is Chinese. -/
def classifyB (c : Char) : Assign :=
  if isAsciiAlpha c || pyIsDigit c then Assign.english
  else if isHan c then Assign.chinese
  else if inPunctB c then
    (if inPunctBEnglish c then Assign.english else Assign.chinese)
  else Assign.chinese

/-- `english_text` of Path B: joined English characters, stripped, then
whitespace-collapsed and stripped again. -/
def englishTextB (t : Str) : Str :=
  pyStrip (collapseWs (pyStrip
    (t.filter fun c => decide (classifyB c = Assign.english))))

/-- `chinese_text` of Path B: joined Chinese characters, stripped (the
source does not whitespace-collapse this side). -/
def chineseTextB (t : Str) : Str :=
  pyStrip (t.filter fun c => decide (classifyB c = Assign.chinese))

/-! ### `_separate_languages` and `parse_bilingual_lyrics` -/

/-- `LyricsProcessor._separate_languages`: blank content is returned
unchanged; with kana present, Path A returns `[first_line, chinese]`
when the Chinese text is non-empty and the Japanese or English text is
non-empty, else the original content; with no kana but both ASCII
letters and Han present, Path B returns `[english, chinese]` when the
Chinese text is non-empty and the English text is longer than one
character, else the original content; otherwise the original content. -/
def separate_languages (t : Str) : List Str :=
  if pyStrip t = [] then [t]
  else if t.any isKana then
    if 0 < (chineseTextA t).length ∧
        (0 < (japaneseText t).length ∨ 0 < (englishTextA t).length) then
      [joinFirstLine (japaneseText t) (englishTextA t), chineseTextA t]
    else [t]
  else if t.any isAsciiAlpha && t.any isHan then
    if 0 < (chineseTextB t).length ∧ 1 < (englishTextB t).length then
      [englishTextB t, chineseTextB t]
    else [t]
  else [t]

/-- Body of the per-line loop of `parse_bilingual_lyrics`: strip the
line; emit a blank line unchanged; emit a metadata line unchanged; for a
timestamped line, separate the content after the tag and re-attach the
tag to every separated line whose strip is non-empty, keeping the line
unchanged when no separation happened; for other lines, separate the
line itself. -/
def processLine (line0 : Str) : List Str :=
  if pyStrip line0 = [] then [[]]
  else if is_metadata_line (pyStrip line0) then [pyStrip line0]
  else
    match matchTimestamp (pyStrip line0) with
    | some ts =>
      if 1 < (separate_languages
          (pyStrip ((pyStrip line0).drop ts.length))).length then
        ((separate_languages
            (pyStrip ((pyStrip line0).drop ts.length))).filter
          fun s => !(pyStrip s).isEmpty).map fun s => ts ++ s
      else [pyStrip line0]
    | none =>
      if 1 < (separate_languages (pyStrip line0)).length then
        separate_languages (pyStrip line0)
      else [pyStrip line0]

/-- `LyricsProcessor.parse_bilingual_lyrics`: empty text yields no lines;
otherwise process each newline-separated line in order. -/
def parse_bilingual_lyrics (lyrics : Str) : List Str :=
  if lyrics = [] then [] else ((pySplit '\n' lyrics).map processLine).flatten

/-! ### Spec-side predicates (from the claims' wording, for comparison
with the source-derived definitions above) -/

/-- ASCII lower-casing, for the spec-side case-insensitive header match. -/
def toLowerAscii (c : Char) : Char :=
  if 0x41 ≤ c.toNat ∧ c.toNat ≤ 0x5a then Char.ofNat (c.toNat + 0x20) else c

/-- Spec-side predicate following claim C2's wording: an LRC header match
with the tag name compared case-insensitively (the line is ASCII
lower-cased before matching the lowercase tag). -/
def headerMatchCI (tag s : Str) : Bool := headerMatch tag (s.map toLowerAscii)

/-- Spec-side predicate following claim C3's wording: a credit label
immediately followed by an ASCII or fullwidth colon, with no characters
in between. -/
def creditImmediate (s : Str) : Bool :=
  creditLabels.any fun p =>
    (p ++ [':']).isPrefixOf s || (p ++ ['：']).isPrefixOf s

/-! ### Helper lemmas: whitespace, `pyStrip`, `collapseWs` -/

theorem isNonWs_of_space {c : Char} (h : isSpaceChar c = true) :
    isNonWs c = false := by
  simp only [isSpaceChar, decide_eq_true_eq] at h
  simp [isNonWs, pyIsSpace, h]

theorem filter_isNonWs_dropWhile (s : Str) :
    (s.dropWhile pyIsSpace).filter isNonWs = s.filter isNonWs := by
  induction s with
  | nil => rfl
  | cons c cs ih =>
    by_cases h : pyIsSpace c = true
    · have hn : isNonWs c = false := by simp [isNonWs, h]
      simp [List.dropWhile_cons, h, List.filter_cons, hn, ih]
    · simp [List.dropWhile_cons, h]

theorem filter_isNonWs_pyStrip (s : Str) :
    (pyStrip s).filter isNonWs = s.filter isNonWs := by
  unfold pyStrip
  rw [List.filter_reverse, filter_isNonWs_dropWhile, List.filter_reverse,
    List.reverse_reverse, filter_isNonWs_dropWhile]

theorem filter_isNonWs_squeeze :
    ∀ s : Str, (squeeze s).filter isNonWs = s.filter isNonWs
  | [] => rfl
  | [c] => rfl
  | c :: d :: cs => by
    unfold squeeze
    by_cases h : isSpaceChar c = true ∧ isSpaceChar d = true
    · rw [if_pos h, filter_isNonWs_squeeze (d :: cs)]
      have h1 : isNonWs c = false := isNonWs_of_space h.1
      simp [List.filter_cons, h1]
    · rw [if_neg h, List.filter_cons, List.filter_cons,
        filter_isNonWs_squeeze (d :: cs)]

theorem filter_isNonWs_collapseWs (s : Str) :
    (collapseWs s).filter isNonWs = s.filter isNonWs := by
  unfold collapseWs
  rw [filter_isNonWs_squeeze]
  induction s with
  | nil => rfl
  | cons c cs ih =>
    by_cases h : pyIsSpace c = true
    · have h1 : isNonWs c = false := by simp [isNonWs, h]
      have h2 : isNonWs ' ' = false := by decide
      simp [List.filter_cons, h, h1, h2, ih]
    · simp [List.filter_cons, h, ih]

theorem filter_isNonWs_clean (s : Str) :
    (pyStrip (collapseWs s)).filter isNonWs = s.filter isNonWs := by
  rw [filter_isNonWs_pyStrip, filter_isNonWs_collapseWs]

theorem pyStrip_eq_nil_iff (s : Str) :
    pyStrip s = [] ↔ s.filter isNonWs = [] := by
  constructor
  · intro h
    have := filter_isNonWs_pyStrip s
    rw [h] at this
    exact this.symm
  · intro h
    have hall : ∀ c ∈ s, pyIsSpace c = true := by
      intro c hc
      have := (List.filter_eq_nil_iff.mp h) c hc
      simpa [isNonWs] using this
    have hd : s.dropWhile pyIsSpace = [] :=
      List.dropWhile_eq_nil_iff.mpr hall
    simp [pyStrip, hd]

theorem pyStrip_ne_nil_iff (s : Str) :
    pyStrip s ≠ [] ↔ s.filter isNonWs ≠ [] :=
  not_congr (pyStrip_eq_nil_iff s)

/-! ### Helper lemmas: indexed access in zips and maps -/

theorem zip_get? {α β : Type} :
    ∀ (l1 : List α) (l2 : List β) (i : Nat),
      (l1.zip l2).get? i =
        (l1.get? i).bind fun x => (l2.get? i).map fun y => (x, y)
  | [], _, _ => by simp
  | _ :: _, [], _ => by simp
  | a :: l1, b :: l2, 0 => by simp [List.zip_cons_cons]
  | a :: l1, b :: l2, i + 1 => by
    simpa [List.zip_cons_cons] using zip_get? l1 l2 i

/-! ### Helper lemmas: lengths of the pass outputs -/

theorem pass1_length (t : Str) : (pass1 t).length = t.length := by
  simp [pass1]

theorem assignWordGo_length (wt : Assign) :
    ∀ (w : Str) (pos : Nat) (a : List Assign),
      (assignWordGo wt w pos a).length = a.length
  | [], _, _ => rfl
  | c :: cs, pos, a => by
    unfold assignWordGo
    rw [assignWordGo_length wt cs]
    split <;> simp

theorem pass2Go_length :
    ∀ (ws : List Str) (pos : Nat) (a : List Assign),
      (pass2Go ws pos a).length = a.length
  | [], _, _ => rfl
  | w :: ws, pos, a => by
    unfold pass2Go
    rw [pass2Go_length ws, assignWordGo_length]

theorem pass2_length (t : Str) (a : List Assign) :
    (pass2 t a).length = a.length := pass2Go_length _ _ _

theorem pass3_length (t : Str) (a : List Assign) :
    (pass3 t a).length = min t.length a.length := by
  simp [pass3]

theorem pass4Step_length (t : Str) (a : List Assign) (i : Nat) :
    (pass4Step t a i).length = a.length := by
  unfold pass4Step
  split <;> simp

theorem pass4Go_length (t : Str) :
    ∀ (fuel i : Nat) (a : List Assign),
      (pass4Go t fuel i a).length = a.length
  | 0, _, _ => rfl
  | fuel + 1, i, a => by
    unfold pass4Go
    rw [pass4Go_length t fuel, pass4Step_length]

theorem assignA_length (t : Str) : (assignA t).length = t.length := by
  unfold assignA pass4
  rw [pass4Go_length, pass3_length, pass2_length, pass1_length, min_self]

/-! ### Helper lemmas: the pass-4 scans -/

theorem scanPrev_lt (t : Str) :
    ∀ {i j : Nat}, scanPrev t i = some j → j < i := by
  intro i
  induction i with
  | zero => intro j h; simp [scanPrev] at h
  | succ n ih =>
    intro j h
    unfold scanPrev at h
    split at h
    · split at h
      · exact Nat.lt_succ_of_lt (ih h)
      · cases h
        exact Nat.lt_succ_self n
    · cases h

theorem scanNextGo_some (t : Str) :
    ∀ {fuel j0 j : Nat}, scanNextGo t fuel j0 = some j →
      ∃ c, t.get? j = some c := by
  intro fuel
  induction fuel with
  | zero => intro j0 j h; simp [scanNextGo] at h
  | succ n ih =>
    intro j0 j h
    unfold scanNextGo at h
    split at h
    · split at h
      · exact ih h
      · cases h
        next c hg _ => exact ⟨c, hg⟩
    · cases h

theorem scanNext_lt (t : Str) {i j : Nat} (h : scanNext t i = some j) :
    j < t.length := by
  obtain ⟨c, hc⟩ := scanNextGo_some t h
  exact List.get?_eq_some.mp hc |>.fst

/-! ### Helper lemmas: structure of one pass-4 step -/

theorem pass4Step_cases (t : Str) (a : List Assign) (i : Nat) :
    pass4Step t a i = a ∨
      ∃ c, t.get? i = some c ∧ a.get? i = some Assign.unassigned ∧
        pass4Step t a i = a.set i (pass4Value t a i c) := by
  unfold pass4Step
  match ht : t.get? i, ha : a.get? i with
  | some c, some Assign.unassigned => exact Or.inr ⟨c, rfl, rfl, rfl⟩
  | some c, some Assign.japanese => exact Or.inl rfl
  | some c, some Assign.english => exact Or.inl rfl
  | some c, some Assign.chinese => exact Or.inl rfl
  | some c, none => exact Or.inl rfl
  | none, _ => exact Or.inl rfl

theorem pass4Step_get?_ne (t : Str) (a : List Assign) {i j : Nat}
    (h : j ≠ i) : (pass4Step t a i).get? j = a.get? j := by
  rcases pass4Step_cases t a i with heq | ⟨c, _, _, heq⟩
  · rw [heq]
  · rw [heq, List.get?_set_ne _ _ (fun hij => h hij.symm)]

theorem pass4Step_eq_set (t : Str) (a : List Assign) (i : Nat) {c : Char}
    (htc : t.get? i = some c) (hac : a.get? i = some Assign.unassigned) :
    pass4Step t a i = a.set i (pass4Value t a i c) := by
  unfold pass4Step
  rw [htc, hac]

theorem pass4Step_eq_of_ne (t : Str) (a : List Assign) (i : Nat)
    (h : a.get? i ≠ some Assign.unassigned) : pass4Step t a i = a := by
  unfold pass4Step
  match ht : t.get? i, ha : a.get? i with
  | some c, some Assign.unassigned => exact absurd ha h
  | some c, some Assign.japanese => rfl
  | some c, some Assign.english => rfl
  | some c, some Assign.chinese => rfl
  | some c, none => rfl
  | none, _ => rfl

/-! ### Helper lemmas: pass 4 leaves no slot unassigned -/

theorem getD_ne_unassigned {a : List Assign} {j : Nat}
    (h : a.get? j ≠ some Assign.unassigned) (hj : j < a.length) :
    a.getD j Assign.unassigned ≠ Assign.unassigned := by
  cases hg : a.get? j with
  | none => exact absurd (List.get?_eq_none.mp hg) (Nat.not_le.mpr hj)
  | some v =>
    rw [List.getD_eq_get?, hg, Option.getD_some]
    intro hv
    exact h (by rw [hg, hv])

theorem pass4Fallback_ne_unassigned (t : Str) (a : List Assign) (i : Nat)
    (hlen : a.length = t.length) (hi : i < t.length)
    (hres : ∀ j < i, a.get? j ≠ some Assign.unassigned) :
    pass4Fallback t a i ≠ Assign.unassigned := by
  unfold pass4Fallback
  cases hp : scanPrev t i with
  | some j =>
    have hj : j < i := scanPrev_lt t hp
    dsimp only
    exact getD_ne_unassigned (hres j hj) (by omega)
  | none =>
    cases hn : scanNext t i with
    | some j =>
      have hj : j < a.length := hlen ▸ scanNext_lt t hn
      dsimp only
      split_ifs with hg
      · exact getD_ne_unassigned hg hj
      · decide
    | none => dsimp only; decide

theorem pass4Value_ne_unassigned (t : Str) (a : List Assign) (i : Nat)
    (c : Char) (hlen : a.length = t.length) (hi : i < t.length)
    (hres : ∀ j < i, a.get? j ≠ some Assign.unassigned) :
    pass4Value t a i c ≠ Assign.unassigned := by
  unfold pass4Value
  by_cases h1 : isSpaceChar c = true
  · rw [if_pos h1]
    split_ifs <;> decide
  · rw [if_neg h1]
    by_cases h2 : inPunctA c = true
    · rw [if_pos h2]
      by_cases h3 : isJpBracket c = true
      · rw [if_pos h3]; decide
      · rw [if_neg h3]
        by_cases h4 : isQuoteEn c = true
        · rw [if_pos h4]; decide
        · rw [if_neg h4]
          by_cases h5 : isSentFinal c = true
          · rw [if_pos h5]
            cases hp : scanPrev t i with
            | some j =>
              have hj : j < i := scanPrev_lt t hp
              exact getD_ne_unassigned (hres j hj) (by omega)
            | none => exact pass4Fallback_ne_unassigned t a i hlen hi hres
          · rw [if_neg h5]
            exact pass4Fallback_ne_unassigned t a i hlen hi hres
    · rw [if_neg h2]; decide

theorem pass4Step_resolves (t : Str) (a : List Assign) (i : Nat)
    (hlen : a.length = t.length) (hi : i < t.length)
    (hres : ∀ j < i, a.get? j ≠ some Assign.unassigned) :
    ∀ j < i + 1, (pass4Step t a i).get? j ≠ some Assign.unassigned := by
  intro j hj
  rcases Nat.lt_succ_iff_lt_or_eq.mp hj with hlt | rfl
  · rw [pass4Step_get?_ne t a (Nat.ne_of_lt hlt)]
    exact hres j hlt
  · by_cases hac : a.get? j = some Assign.unassigned
    · have htc : t.get? j = some (t.get ⟨j, hi⟩) := List.get?_eq_get hi
      rw [pass4Step_eq_set t a j htc hac, List.get?_set_eq, hac]
      simp only [Option.map_eq_map, Option.map_some']
      intro hv
      exact pass4Value_ne_unassigned t a j _ hlen hi hres (Option.some.inj hv)
    · rw [pass4Step_eq_of_ne t a j hac]
      exact hac

theorem pass4Go_get?_lt (t : Str) :
    ∀ (fuel start : Nat) (a : List Assign) {j : Nat}, j < start →
      (pass4Go t fuel start a).get? j = a.get? j
  | 0, _, _, _, _ => rfl
  | fuel + 1, start, a, j, hj => by
    unfold pass4Go
    rw [pass4Go_get?_lt t fuel (start + 1) _ (Nat.lt_succ_of_lt hj),
      pass4Step_get?_ne t a (Nat.ne_of_lt hj)]

theorem pass4Go_resolved (t : Str) :
    ∀ (fuel start : Nat) (a : List Assign),
      a.length = t.length → start + fuel = t.length →
      (∀ j < start, a.get? j ≠ some Assign.unassigned) →
      ∀ j < t.length, (pass4Go t fuel start a).get? j ≠ some Assign.unassigned
  | 0, start, a, hlen, hfuel, hres => by
    intro j hj
    unfold pass4Go
    exact hres j (by omega)
  | fuel + 1, start, a, hlen, hfuel, hres => by
    intro j hj
    unfold pass4Go
    have hstart : start < t.length := by omega
    exact pass4Go_resolved t fuel (start + 1) (pass4Step t a start)
      (by rw [pass4Step_length, hlen]) (by omega)
      (pass4Step_resolves t a start hlen hstart hres) j hj

theorem assignA_resolved (t : Str) :
    ∀ j < t.length, (assignA t).get? j ≠ some Assign.unassigned := by
  unfold assignA pass4
  apply pass4Go_resolved
  · rw [pass3_length, pass2_length, pass1_length, min_self]
  · exact Nat.zero_add _
  · intro j hj
    exact absurd hj (Nat.not_lt_zero j)

theorem assignA_mem_ne_unassigned (t : Str) :
    ∀ x ∈ assignA t, x ≠ Assign.unassigned := by
  intro x hx hx'
  obtain ⟨n, hn⟩ := List.mem_iff_get?.mp hx
  have hlt : n < (assignA t).length := (List.get?_eq_some.mp hn).fst
  rw [assignA_length] at hlt
  exact assignA_resolved t n hlt (hx' ▸ hn)

/-! ### Helper lemmas: the three buckets partition the assigned text -/

theorem filterMap_selCat_cons_eq (v : Assign) (c : Char)
    (l : List (Char × Assign)) :
    ((c, v) :: l).filterMap (selCat v) = c :: l.filterMap (selCat v) := by
  rw [List.filterMap_cons]
  simp [selCat]

theorem filterMap_selCat_cons_ne (v w : Assign) (c : Char)
    (l : List (Char × Assign)) (h : w ≠ v) :
    ((c, w) :: l).filterMap (selCat v) = l.filterMap (selCat v) := by
  rw [List.filterMap_cons]
  simp [selCat, h]

theorem filterMap_partition :
    ∀ l : List (Char × Assign), (∀ p ∈ l, p.2 ≠ Assign.unassigned) →
      (l.filterMap (selCat Assign.japanese) ++
        l.filterMap (selCat Assign.english) ++
        l.filterMap (selCat Assign.chinese)).Perm (l.map Prod.fst)
  | [], _ => by simp
  | (c, v) :: l, h => by
    have ih := filterMap_partition l fun p hp => h p (List.mem_cons_of_mem _ hp)
    have hv : v ≠ Assign.unassigned := h (c, v) (List.mem_cons_self _ _)
    cases v with
    | unassigned => exact absurd rfl hv
    | japanese =>
      rw [List.map_cons, filterMap_selCat_cons_eq,
        filterMap_selCat_cons_ne _ _ _ _ (by decide),
        filterMap_selCat_cons_ne _ _ _ _ (by decide)]
      simp only [List.cons_append]
      exact ih.cons c
    | english =>
      rw [List.map_cons, filterMap_selCat_cons_eq,
        filterMap_selCat_cons_ne _ _ _ _ (by decide),
        filterMap_selCat_cons_ne _ _ _ _ (by decide)]
      rw [List.append_assoc] at ih ⊢
      rw [List.cons_append]
      exact List.perm_middle.trans (ih.cons c)
    | chinese =>
      rw [List.map_cons, filterMap_selCat_cons_eq,
        filterMap_selCat_cons_ne _ _ _ _ (by decide),
        filterMap_selCat_cons_ne _ _ _ _ (by decide)]
      exact List.perm_middle.trans (ih.cons c)

theorem collect_partition_perm (t : Str) (a : List Assign)
    (hlen : a.length = t.length) (h : ∀ x ∈ a, x ≠ Assign.unassigned) :
    (collect t a Assign.japanese ++ collect t a Assign.english ++
      collect t a Assign.chinese).Perm t := by
  have hz : ∀ p ∈ t.zip a, p.2 ≠ Assign.unassigned := by
    intro p hp
    cases p with
    | mk x y => exact h y (List.mem_zip hp).2
  have hperm := filterMap_partition (t.zip a) hz
  rwa [List.map_fst_zip t a (le_of_eq hlen.symm)] at hperm

/-! ### Helper lemmas: the split/rejoin alignment used by pass 2 -/

theorem pySplit_ne_nil (sep : Char) : ∀ s : Str, pySplit sep s ≠ []
  | [] => by simp [pySplit]
  | c :: cs => by
    unfold pySplit
    split_ifs
    · simp
    · cases h : pySplit sep cs <;> simp

theorem flattenWs_cons_cons (c : Char) (w : Str) (ws : List Str) :
    flattenWs ((c :: w) :: ws) = c :: flattenWs (w :: ws) := by
  cases ws <;> rfl

theorem flattenWs_pySplit : ∀ s : Str, flattenWs (pySplit ' ' s) = s
  | [] => rfl
  | c :: cs => by
    have ih := flattenWs_pySplit cs
    obtain ⟨w, ws, hr⟩ : ∃ w ws, pySplit ' ' cs = w :: ws := by
      cases hq : pySplit ' ' cs with
      | nil => exact absurd hq (pySplit_ne_nil ' ' cs)
      | cons w ws => exact ⟨w, ws, rfl⟩
    unfold pySplit
    by_cases h : c = ' '
    · rw [if_pos h, hr]
      have hfl : flattenWs ([] :: w :: ws) = ' ' :: flattenWs (w :: ws) := rfl
      rw [hfl, ← hr, ih, h]
    · rw [if_neg h, hr, flattenWs_cons_cons, ← hr, ih]

/-! ### Helper lemmas: passes 1 to 3 at individual positions -/

theorem pass1_get? (t : Str) (i : Nat) {c : Char} (h : t.get? i = some c) :
    (pass1 t).get? i =
      some (if isKana c then Assign.japanese else Assign.unassigned) := by
  unfold pass1
  rw [List.get?_map, h]
  rfl

theorem assignWordGo_get?_preserve (wt : Assign) :
    ∀ (w : Str) (pos : Nat) (a : List Assign) (i : Nat),
      (∀ j, j < w.length → i = pos + j → isHan (w.getD j ' ') = false) →
      (assignWordGo wt w pos a).get? i = a.get? i
  | [], _, _, _, _ => rfl
  | c :: cs, pos, a, i, h => by
    unfold assignWordGo
    rw [assignWordGo_get?_preserve wt cs (pos + 1) _ i (fun j hj he => by
      simpa using h (j + 1) (by simpa using Nat.succ_lt_succ hj) (by omega))]
    split_ifs with hc
    · have hi : i ≠ pos := by
        intro he
        have hh := h 0 (by simp) (by omega)
        rw [List.getD_cons_zero] at hh
        rw [hh] at hc
        exact absurd hc.2.1 (by simp)
      rw [List.get?_set_ne _ _ fun hh => hi hh.symm]
    · rfl

theorem pass2Go_get?_preserve (t : Str) :
    ∀ (ws : List Str) (pos : Nat) (a : List Assign) (i : Nat) {c : Char},
      t.get? i = some c → isHan c = false →
      (∀ j d, (flattenWs ws).get? j = some d → t.get? (pos + j) = some d) →
      (pass2Go ws pos a).get? i = a.get? i
  | [], _, _, _, _, _, _, _ => rfl
  | w :: ws, pos, a, i, c, htc, hhan, halign => by
    unfold pass2Go
    have hflat : ∀ j, j < w.length → (flattenWs (w :: ws)).get? j = w.get? j := by
      intro j hj
      cases ws with
      | nil => rfl
      | cons w2 ws2 =>
        have : flattenWs (w :: w2 :: ws2) = w ++ ' ' :: flattenWs (w2 :: ws2) :=
          rfl
        rw [this, List.get?_append hj]
    rw [pass2Go_get?_preserve t ws (pos + w.length + 1) _ i htc hhan
      (fun j d hd => by
        have hne : ws ≠ [] := by
          intro he
          rw [he] at hd
          simp [flattenWs] at hd
        obtain ⟨w2, ws2, rfl⟩ : ∃ w2 ws2, ws = w2 :: ws2 := by
          cases ws with
          | nil => exact absurd rfl hne
          | cons w2 ws2 => exact ⟨w2, ws2, rfl⟩
        have hfl : flattenWs (w :: w2 :: ws2) =
            w ++ ' ' :: flattenWs (w2 :: ws2) := rfl
        have := halign (w.length + 1 + j) d (by
          rw [hfl, List.get?_append_right (by omega)]
          have hsub : w.length + 1 + j - w.length = j + 1 := by omega
          rw [hsub]
          simpa using hd)
        have harith : pos + (w.length + 1 + j) = pos + w.length + 1 + j := by
          omega
        rwa [harith] at this)]
    refine assignWordGo_get?_preserve (wordType w) w pos a i ?_
    intro j hj he
    have hw : w.get? j = some (w.getD j ' ') := by
      rw [List.get?_eq_get hj, List.getD_eq_get?, List.get?_eq_get hj]
      rfl
    have := halign j (w.getD j ' ') (by rw [hflat j hj]; exact hw)
    rw [← he, htc] at this
    cases this
    exact hhan

theorem pass2_get?_preserve (t : Str) (a : List Assign) (i : Nat) {c : Char}
    (htc : t.get? i = some c) (hhan : isHan c = false) :
    (pass2 t a).get? i = a.get? i := by
  unfold pass2
  refine pass2Go_get?_preserve t _ 0 a i htc hhan ?_
  intro j d hd
  rw [flattenWs_pySplit] at hd
  simpa using hd

theorem pass3_get?_of (t : Str) (a : List Assign) (i : Nat) {c : Char}
    {v : Assign} (htc : t.get? i = some c) (hav : a.get? i = some v) :
    (pass3 t a).get? i =
      some (if isAsciiAlpha c ∧ v = Assign.unassigned then Assign.english
            else v) := by
  unfold pass3
  rw [List.get?_map, zip_get? t a i, htc, hav]
  rfl

/-! ### Helper lemmas: the default Chinese bucket of pass 4 -/

theorem pass4Value_default (t : Str) (a : List Assign) (i : Nat) {c : Char}
    (hsp : isSpaceChar c = false) (hpn : inPunctA c = false) :
    pass4Value t a i c = Assign.chinese := by
  unfold pass4Value
  rw [if_neg (by simp [hsp]), if_neg (by simp [hpn])]

theorem pass4Go_default (t : Str) :
    ∀ (fuel start : Nat) (a : List Assign) (i : Nat) {c : Char},
      a.length = t.length →
      t.get? i = some c → a.get? i = some Assign.unassigned →
      isSpaceChar c = false → inPunctA c = false →
      start ≤ i → i < start + fuel →
      (pass4Go t fuel start a).get? i = some Assign.chinese
  | 0, start, a, i, c, hlen, htc, hac, hsp, hpn, hsi, hif => by omega
  | fuel + 1, start, a, i, c, hlen, htc, hac, hsp, hpn, hsi, hif => by
    unfold pass4Go
    by_cases h : start = i
    · subst h
      rw [pass4Go_get?_lt t fuel (start + 1) _ (Nat.lt_succ_self start),
        pass4Step_eq_set t a start htc hac, List.get?_set_eq, hac,
        pass4Value_default t a start hsp hpn]
      rfl
    · exact pass4Go_default t fuel (start + 1) (pass4Step t a start) i
        (by rw [pass4Step_length, hlen]) htc
        (by rw [pass4Step_get?_ne t a fun hh => h hh.symm]; exact hac)
        hsp hpn (by omega) (by omega)

/-- Shared helper for claims C1 and C9: a character that is not kana, not
Han, not an ASCII letter, not the ASCII space and not in the pass-4
punctuation set ends up in the Chinese bucket of Path A. -/
theorem assignA_default_chinese (t : Str) (i : Nat) {c : Char}
    (htc : t.get? i = some c)
    (hkana : isKana c = false) (hhan : isHan c = false)
    (halpha : isAsciiAlpha c = false) (hsp : isSpaceChar c = false)
    (hpn : inPunctA c = false) :
    (assignA t).get? i = some Assign.chinese := by
  have h1 : (pass1 t).get? i = some Assign.unassigned := by
    rw [pass1_get? t i htc, hkana]
    rfl
  have h2 : (pass2 t (pass1 t)).get? i = some Assign.unassigned := by
    rw [pass2_get?_preserve t _ i htc hhan]
    exact h1
  have h3 : (pass3 t (pass2 t (pass1 t))).get? i = some Assign.unassigned := by
    rw [pass3_get?_of t _ i htc h2, halpha]
    rfl
  have hi : i < t.length := (List.get?_eq_some.mp htc).fst
  unfold assignA pass4
  exact pass4Go_default t t.length 0 _ i
    (by rw [pass3_length, pass2_length, pass1_length, min_self]) htc h3
    hsp hpn (Nat.zero_le i) (by omega)

/-- An ASCII digit is outside every class that passes 1 to 4 treat
specially, so it reaches the final default branch of pass 4. -/
theorem asciiDigit_class_facts {c : Char} (hd : isAsciiDigit c = true) :
    isKana c = false ∧ isHan c = false ∧ isAsciiAlpha c = false ∧
    isSpaceChar c = false ∧ inPunctA c = false := by
  have hr : 0x30 ≤ c.toNat ∧ c.toNat ≤ 0x39 := by
    simpa [isAsciiDigit] using hd
  obtain ⟨h1, h2⟩ := hr
  refine ⟨?_, ?_, ?_, ?_, ?_⟩
  · simp only [isKana, isHiragana, isKatakana, Bool.or_eq_false_iff,
      Bool.and_eq_false_iff, decide_eq_false_iff_not, Nat.not_le]
    omega
  · simp only [isHan, Bool.and_eq_false_iff, decide_eq_false_iff_not,
      Nat.not_le]
    omega
  · simp only [isAsciiAlpha, Bool.or_eq_false_iff, Bool.and_eq_false_iff,
      decide_eq_false_iff_not, Nat.not_le]
    omega
  · simp only [isSpaceChar, decide_eq_false_iff_not]
    omega
  · simp only [inPunctA, Bool.or_eq_false_iff, decide_eq_false_iff_not]
    repeat' apply And.intro
    all_goals
      first
      | (rintro rfl; revert h1 h2; decide)
      | (intro he; omega)

/-! ### Claim theorems -/

/-- C1: `_separate_languages` is a total pure function of its input: it
is defined (hence deterministic and exception-free) on every string,
always returning one or two strings; a character outside every defined
script range — not kana, not Han, not an ASCII letter, and not one of
the space or punctuation characters that the punctuation pass treats
specially — is folded into the Chinese bucket, on Path A (final default
of pass 4) and on Path B (final `else` of the per-character pass)
alike. -/
theorem c1_total_pure_default_chinese :
    (∀ t : Str, separate_languages t = separate_languages t) ∧
    (∀ t : Str,
      (separate_languages t).length = 1 ∨ (separate_languages t).length = 2) ∧
    (∀ (t : Str) (i : Nat) (c : Char), t.get? i = some c →
      isKana c = false → isHan c = false → isAsciiAlpha c = false →
      isSpaceChar c = false → inPunctA c = false →
      (assignA t).get? i = some Assign.chinese) ∧
    (∀ c : Char, isAsciiAlpha c = false → pyIsDigit c = false →
      inPunctBEnglish c = false → classifyB c = Assign.chinese) := by
  refine ⟨fun t => rfl, ?_, ?_, ?_⟩
  · intro t
    unfold separate_languages
    split_ifs <;> simp
  · intro t i c htc hk hh ha hs hp
    exact assignA_default_chinese t i htc hk hh ha hs hp
  · intro c ha hd hp
    unfold classifyB
    rw [if_neg (by simp [ha, hd])]
    split_ifs <;> simp_all

/-- C1, witness: the star `☆` (U+2606) lies outside every defined range
and is assigned Chinese by both paths. -/
theorem c1_witness :
    (assignA ("☆".data)).get? 0 = some Assign.chinese ∧
    classifyB '☆' = Assign.chinese :=
  ⟨c1_total_pure_default_chinese.2.2.1 ("☆".data) 0 '☆' (by decide)
      (by decide) (by decide) (by decide) (by decide) (by decide),
    c1_total_pure_default_chinese.2.2.2 '☆' (by decide) (by decide)
      (by decide)⟩

/-- C9: in Path A every ASCII digit is assigned to the Chinese bucket —
the English pass covers only ASCII letters, and a digit falls through
pass 4 to the final default — so the purely Japanese line
`"今日も 123"` is split in two, with the digits emitted as the second,
Chinese line. -/
theorem c9_digits_chinese :
    (∀ (t : Str) (i : Nat) (c : Char), t.get? i = some c →
      isAsciiDigit c = true → (assignA t).get? i = some Assign.chinese) ∧
    separate_languages ("今日も 123".data) = ["今日も".data, "123".data] := by
  constructor
  · intro t i c htc hd
    obtain ⟨hk, hh, ha, hs, hp⟩ := asciiDigit_class_facts hd
    exact assignA_default_chinese t i htc hk hh ha hs hp
  · decide

/-- C9, witness: the digit `1` at position 4 of `"今日も 123"` is in the
Chinese bucket. -/
theorem c9_witness :
    (assignA ("今日も 123".data)).get? 4 = some Assign.chinese :=
  c9_digits_chinese.1 ("今日も 123".data) 4 '1' (by decide) (by decide)

/-- C2, counterexample: the line `"[BY:x]"` matches the `[by:...]` header
pattern case-insensitively (the spec-side reading of the claim), yet
`_is_metadata_line` returns false on it, because the source's regexes are
compiled without `re.IGNORECASE` and only match a lowercase tag name. -/
theorem c2_counterexample :
    headerMatchCI ("by".data) ("[BY:x]".data) = true ∧
    is_metadata_line ("[BY:x]".data) = false := by decide

/-- C2, amended: for every line whose whole trimmed text matches one of
the eight LRC header patterns with the tag name written in lowercase
exactly as in the source (the match is case-sensitive), `_is_metadata_line`
returns true. -/
theorem c2_amended (l : Str) (h : isLrcHeader (pyStrip l) = true) :
    is_metadata_line l = true := by
  unfold is_metadata_line
  rw [if_pos h]

/-- C2, witness: the amended theorem applied to the line `"[by:x]"`. -/
theorem c2_witness : is_metadata_line ("[by:x]".data) = true :=
  c2_amended _ (by decide)

/-- C3, counterexample: the timestamped line `"[00:00.00]作词 :x"` is not
an LRC header and its credit label 作词 is not immediately followed by a
colon (a space intervenes, so the claim's condition is false), yet
`_is_metadata_line` returns true, because the source patterns are
`^LABEL\s*[:：]` and allow optional whitespace before the colon. -/
theorem c3_counterexample :
    is_metadata_line ("[00:00.00]作词 :x".data) = true ∧
    creditImmediate ("作词 :x".data) = false ∧
    matchTimestamp (pyStrip ("[00:00.00]作词 :x".data)) =
      some ("[00:00.00]".data) ∧
    isLrcHeader (pyStrip ("[00:00.00]作词 :x".data)) = false := by decide

/-- C3, amended: for every line carrying a leading timestamp tag that is
not an LRC header line, `_is_metadata_line` returns true exactly when the
content after the timestamp begins with one of the ten credit-label
prefixes followed, after optional whitespace, by an ASCII or fullwidth
colon. -/
theorem c3_amended (l ts : Str)
    (hts : matchTimestamp (pyStrip l) = some ts)
    (hhd : isLrcHeader (pyStrip l) = false) :
    is_metadata_line l = true ↔
      isCreditLine (pyStrip ((pyStrip l).drop ts.length)) = true := by
  unfold is_metadata_line
  rw [if_neg (by simp [hhd]), hts]

/-- C3, witness: the amended theorem applied to `"[00:11.22]曲:x"`. -/
theorem c3_witness :
    is_metadata_line ("[00:11.22]曲:x".data) = true ↔
      isCreditLine (pyStrip ((pyStrip ("[00:11.22]曲:x".data)).drop
        ("[00:11.22]".data).length)) = true :=
  c3_amended _ _ (by decide) (by decide)

/-- C4, counterexample: the fullwidth digit `１` (U+FF11, code point at
least 128, not an ASCII letter and not English-side punctuation) is
classified English by Path B, because the source test is
`(char.isalpha() and ord(char) < 128) or char.isdigit()` and `isdigit`
is not restricted to ASCII; on `"ab１ 汉"`, `１` is emitted in the
English output line, not the Chinese one. -/
theorem c4_counterexample :
    classifyB '１' = Assign.english ∧ 128 ≤ ('１').toNat ∧
    isAsciiAlpha '１' = false ∧ inPunctBEnglish '１' = false ∧
    separate_languages ("ab１ 汉".data) = ["ab１".data, "汉".data] := by
  decide

/-- C4, amended: in Path B, every character classified English is an
ASCII letter, or a digit character in the sense of Python's `isdigit`
(which includes non-ASCII digits such as fullwidth `１`), or one of the
fixed English-side punctuation characters. -/
theorem c4_amended (c : Char) (h : classifyB c = Assign.english) :
    isAsciiAlpha c = true ∨ pyIsDigit c = true ∨ inPunctBEnglish c = true := by
  unfold classifyB at h
  by_cases h1 : (isAsciiAlpha c || pyIsDigit c) = true
  · rcases Bool.or_eq_true_iff.mp h1 with ha | hd
    · exact Or.inl ha
    · exact Or.inr (Or.inl hd)
  · rw [if_neg (by simpa using h1)] at h
    split_ifs at h with h2 h3 h4
    exact Or.inr (Or.inr h4)

/-- C4, witness: the amended theorem applied to the letter `a`. -/
theorem c4_witness :
    isAsciiAlpha 'a' = true ∨ pyIsDigit 'a' = true ∨
      inPunctBEnglish 'a' = true :=
  c4_amended 'a' (by decide)

/-- C8: on `"[01:23.45]心が踊るよ 这首歌真好听"` the driver takes Path A;
the Han characters 心 and 踊 of the kana-containing word are classified
Japanese, the Han characters of the kana-free word (such as 这 and 听)
are classified Chinese, and the output is exactly the two tagged lines in
order. -/
theorem c8_scenario4 :
    parse_bilingual_lyrics ("[01:23.45]心が踊るよ 这首歌真好听".data) =
      ["[01:23.45]心が踊るよ".data, "[01:23.45]这首歌真好听".data] ∧
    ("心が踊るよ 这首歌真好听".data).any isKana = true ∧
    (assignA ("心が踊るよ 这首歌真好听".data)).get? 0 =
      some Assign.japanese ∧
    (assignA ("心が踊るよ 这首歌真好听".data)).get? 2 =
      some Assign.japanese ∧
    (assignA ("心が踊るよ 这首歌真好听".data)).get? 6 =
      some Assign.chinese ∧
    (assignA ("心が踊るよ 这首歌真好听".data)).get? 11 =
      some Assign.chinese := by
  decide

/-- A matched timestamp tag is a prefix of the line it was matched on. -/
theorem matchTimestamp_front {s ts : Str} (h : matchTimestamp s = some ts) :
    ts <+: s := by
  unfold matchTimestamp at h
  split at h
  · split at h
    · split at h
      · split_ifs at h with hx1 hx2
        · cases h
          exact ⟨_, rfl⟩
        · subst hx2
          cases h
          exact ⟨_, rfl⟩
      · cases h
        exact ⟨_, rfl⟩
      · cases h
    · cases h
  · cases h

theorem matchTimestamp_nil_ne {ts : Str}
    (h : matchTimestamp ([] : Str) = some ts) : False := by
  cases h

/-- C6: for every line whose stripped text begins with a timestamp tag
(as matched by the source regex), every line emitted for it by the body
of `parse_bilingual_lyrics` begins with that exact tag: metadata and
unseparated lines are re-emitted starting with the tag they carry, and
separated lines are re-prefixed with the matched tag verbatim. -/
theorem c6_timestamp_fidelity (l ts : Str)
    (h : matchTimestamp (pyStrip l) = some ts) :
    (processLine l).all (fun out => ts.isPrefixOf out) = true := by
  have hpre : ts <+: pyStrip l := matchTimestamp_front h
  have hne : pyStrip l ≠ [] := by
    intro he
    rw [he] at h
    exact matchTimestamp_nil_ne h
  rw [List.all_eq_true]
  intro out hout
  rw [ List.isPrefixOf_iff_prefix]
  unfold processLine at hout
  rw [if_neg hne] at hout
  by_cases hmeta : is_metadata_line (pyStrip l) = true
  · rw [if_pos hmeta] at hout
    rw [List.mem_singleton.mp hout]
    exact hpre
  · rw [if_neg hmeta] at hout
    split at hout
    · next ts2 heq =>
      obtain rfl : ts2 = ts := by
        rw [heq] at h
        exact Option.some.inj h
      split_ifs at hout with hsep
      · obtain ⟨s, _, rfl⟩ := List.mem_map.mp hout
        exact List.prefix_append _ s
      · rw [List.mem_singleton.mp hout]
        exact hpre
    · next heq =>
      rw [heq] at h
      cases h

/-- C6, witness: the theorem applied to a line that separates into two
output lines, both prefixed with the tag `[00:01.02]`. -/
theorem c6_witness :
    (processLine ("[00:01.02]汉字 good".data)).all
      (fun out => ("[00:01.02]".data).isPrefixOf out) = true :=
  c6_timestamp_fidelity _ _ (by decide)

theorem kana_not_space {c : Char} (h : isKana c = true) :
    pyIsSpace c = false := by
  simp only [isKana, isHiragana, isKatakana, Bool.or_eq_true,
    Bool.and_eq_true, decide_eq_true_eq] at h
  simp only [pyIsSpace, Bool.or_eq_false_iff, decide_eq_false_iff_not]
  omega

theorem pyStrip_ne_nil_of_kana {t : Str} (h : t.any isKana = true) :
    pyStrip t ≠ [] := by
  obtain ⟨c, hc, hk⟩ := List.any_eq_true.mp h
  rw [pyStrip_ne_nil_iff]
  intro hnil
  have h2 := List.filter_eq_nil_iff.mp hnil c hc
  have h3 : isNonWs c = true := by simp [isNonWs, kana_not_space hk]
  exact h2 h3

/-- C7: with kana present, `_separate_languages` returns two strings
exactly when the collected Chinese text is non-empty and the collected
Japanese or English text is non-empty; the two strings are then the
Japanese and English texts joined in that order and the Chinese text,
and in every other case the original content comes back as a single
string — Path A never splits Japanese from English. -/
theorem c7_pathA_decision (t : Str) (hk : t.any isKana = true) :
    separate_languages t =
      (if 0 < (chineseTextA t).length ∧
          (0 < (japaneseText t).length ∨ 0 < (englishTextA t).length) then
        [joinFirstLine (japaneseText t) (englishTextA t), chineseTextA t]
      else [t]) ∧
    ((separate_languages t).length = 2 ↔
      0 < (chineseTextA t).length ∧
        (0 < (japaneseText t).length ∨ 0 < (englishTextA t).length)) := by
  have hne : pyStrip t ≠ [] := pyStrip_ne_nil_of_kana hk
  have h1 : separate_languages t =
      (if 0 < (chineseTextA t).length ∧
          (0 < (japaneseText t).length ∨ 0 < (englishTextA t).length) then
        [joinFirstLine (japaneseText t) (englishTextA t), chineseTextA t]
      else [t]) := by
    unfold separate_languages
    rw [if_neg hne, if_pos hk]
  refine ⟨h1, ?_⟩
  rw [h1]
  split_ifs with h
  · simp [h]
  · simp [h]

/-- C7, witness: the theorem applied to `"あ 汉"`, which separates into
`["あ", "汉"]`. -/
theorem c7_witness :
    (separate_languages ("あ 汉".data) =
      if 0 < (chineseTextA ("あ 汉".data)).length ∧
          (0 < (japaneseText ("あ 汉".data)).length ∨
            0 < (englishTextA ("あ 汉".data)).length) then
        [joinFirstLine (japaneseText ("あ 汉".data))
            (englishTextA ("あ 汉".data)),
          chineseTextA ("あ 汉".data)]
      else [("あ 汉".data)]) ∧
    ((separate_languages ("あ 汉".data)).length = 2 ↔
      0 < (chineseTextA ("あ 汉".data)).length ∧
        (0 < (japaneseText ("あ 汉".data)).length ∨
          0 < (englishTextA ("あ 汉".data)).length)) :=
  c7_pathA_decision _ (by decide)

theorem pyStrip_pyStrip_ne_nil {u : Str} (h : pyStrip u ≠ []) :
    pyStrip (pyStrip u) ≠ [] := by
  rw [pyStrip_ne_nil_iff] at h ⊢
  rwa [filter_isNonWs_pyStrip]

theorem joinFirstLine_strip_ne_nil {u v : Str}
    (h : pyStrip u ≠ [] ∨ pyStrip v ≠ []) :
    pyStrip (joinFirstLine (pyStrip u) (pyStrip v)) ≠ [] := by
  unfold joinFirstLine
  rw [pyStrip_ne_nil_iff, filter_isNonWs_pyStrip]
  by_cases hu : pyStrip u = []
  · rw [if_pos hu, filter_isNonWs_pyStrip]
    rcases h with h | h
    · exact absurd hu h
    · exact (pyStrip_ne_nil_iff v).mp h
  · rw [if_neg hu]
    by_cases hv : pyStrip v = []
    · rw [if_pos hv, filter_isNonWs_pyStrip]
      exact (pyStrip_ne_nil_iff u).mp hu
    · rw [if_neg hv, List.filter_append]
      intro hnil
      have ha := (List.append_eq_nil.mp hnil).1
      rw [filter_isNonWs_pyStrip] at ha
      exact (pyStrip_ne_nil_iff u).mp hu ha

/-- C10: whenever `_separate_languages` returns two strings, both are
non-empty after trimming, so the caller's filter that drops a blank half
of a two-string result never removes anything and no emitted sibling
line is blank. -/
theorem c10_two_results_nonblank (t : Str)
    (h : (separate_languages t).length = 2) :
    (separate_languages t).all (fun s => !(pyStrip s).isEmpty) = true := by
  unfold separate_languages at h ⊢
  split_ifs at h ⊢ with h1 h2 h3 h4 h5
  · exact absurd h (by simp)
  · have hch : pyStrip (chineseTextA t) ≠ [] := by
      unfold chineseTextA
      exact pyStrip_pyStrip_ne_nil
        (by
          have := List.length_pos.mp h3.1
          unfold chineseTextA at this
          exact this)
    have hjoin :
        pyStrip (joinFirstLine (japaneseText t) (englishTextA t)) ≠ [] := by
      unfold japaneseText englishTextA
      refine joinFirstLine_strip_ne_nil ?_
      rcases h3.2 with hj | he
      · exact Or.inl (by
          have := List.length_pos.mp hj
          unfold japaneseText at this
          exact this)
      · exact Or.inr (by
          have := List.length_pos.mp he
          unfold englishTextA at this
          exact this)
    simp only [List.all_cons, List.all_nil, Bool.and_true, Bool.and_eq_true,
      Bool.not_eq_true', List.isEmpty_eq_false]
    exact ⟨hjoin, hch⟩
  · exact absurd h (by simp)
  · have hen : pyStrip (englishTextB t) ≠ [] := by
      unfold englishTextB
      exact pyStrip_pyStrip_ne_nil
        (by
          have := List.length_pos.mp (Nat.lt_of_lt_of_le Nat.zero_lt_one
            (Nat.le_of_lt h5.2))
          unfold englishTextB at this
          exact this)
    have hch : pyStrip (chineseTextB t) ≠ [] := by
      unfold chineseTextB
      exact pyStrip_pyStrip_ne_nil
        (by
          have := List.length_pos.mp h5.1
          unfold chineseTextB at this
          exact this)
    simp only [List.all_cons, List.all_nil, Bool.and_true, Bool.and_eq_true,
      Bool.not_eq_true', List.isEmpty_eq_false]
    exact ⟨hen, hch⟩
  · exact absurd h (by simp)
  · exact absurd h (by simp)

/-- C10, witness: the theorem on the two-line separation of `"あ 汉"`. -/
theorem c10_witness :
    (separate_languages ("あ 汉".data)).all
      (fun s => !(pyStrip s).isEmpty) = true :=
  c10_two_results_nonblank _ (by decide)

theorem filter_isNonWs_joinFirstLine (jp en : Str) :
    (joinFirstLine jp en).filter isNonWs =
      jp.filter isNonWs ++ en.filter isNonWs := by
  unfold joinFirstLine
  rw [filter_isNonWs_pyStrip]
  by_cases h1 : jp = []
  · rw [if_pos h1, h1]
    simp
  · rw [if_neg h1]
    by_cases h2 : en = []
    · rw [if_pos h2, h2]
      simp
    · rw [if_neg h2, List.filter_append, List.filter_cons,
        if_neg (by decide)]

theorem classifyB_cases (c : Char) :
    classifyB c = Assign.english ∨ classifyB c = Assign.chinese := by
  unfold classifyB
  split_ifs <;> simp

/-- C5: the multiset of non-whitespace characters across all strings
returned by `_separate_languages` equals the multiset of non-whitespace
characters of the input: every character is assigned to exactly one
category before collection, and only whitespace is dropped by the
run-collapsing and trimming of the final per-category strings. -/
theorem c5_conservation (t : Str) :
    (((separate_languages t).flatten.filter isNonWs : Str) : Multiset Char) =
      ((t.filter isNonWs : Str) : Multiset Char) := by
  rw [Multiset.coe_eq_coe]
  unfold separate_languages
  split_ifs with h1 h2 h3 h4 h5
  · simp only [List.flatten_cons, List.flatten_nil, List.append_nil]
    exact List.Perm.refl _
  · have hperm := collect_partition_perm t (assignA t) (assignA_length t)
      (assignA_mem_ne_unassigned t)
    have hstep : ([joinFirstLine (japaneseText t) (englishTextA t),
        chineseTextA t].flatten).filter isNonWs =
        (collect t (assignA t) Assign.japanese ++
          collect t (assignA t) Assign.english ++
          collect t (assignA t) Assign.chinese).filter isNonWs := by
      simp only [List.flatten_cons, List.flatten_nil, List.append_nil]
      rw [List.filter_append, filter_isNonWs_joinFirstLine]
      unfold japaneseText englishTextA chineseTextA
      rw [filter_isNonWs_clean, filter_isNonWs_clean,
        filter_isNonWs_clean, List.filter_append, List.filter_append]
    rw [hstep]
    exact hperm.filter isNonWs
  · simp only [List.flatten_cons, List.flatten_nil, List.append_nil]
    exact List.Perm.refl _
  · have hchin :
        (t.filter fun c => decide (classifyB c = Assign.chinese)) =
          t.filter fun c =>
            !(decide (classifyB c = Assign.english)) := by
      refine List.filter_congr ?_
      intro x _
      rcases classifyB_cases x with h | h <;> rw [h] <;> decide
    have hstep : ([englishTextB t, chineseTextB t].flatten).filter isNonWs =
        ((t.filter fun c => decide (classifyB c = Assign.english)) ++
          (t.filter fun c =>
            !(decide (classifyB c = Assign.english)))).filter isNonWs := by
      simp only [List.flatten_cons, List.flatten_nil, List.append_nil]
      unfold englishTextB chineseTextB
      rw [List.filter_append, filter_isNonWs_clean,
        filter_isNonWs_pyStrip, filter_isNonWs_pyStrip, hchin,
        List.filter_append]
    rw [hstep]
    exact (List.filter_append_perm
      (fun c => decide (classifyB c = Assign.english)) t).filter isNonWs
  · simp only [List.flatten_cons, List.flatten_nil, List.append_nil]
    exact List.Perm.refl _
  · simp only [List.flatten_cons, List.flatten_nil, List.append_nil]
    exact List.Perm.refl _

/-- C5, witness: the conservation theorem evaluated on `"你 ok"`, which
Path B separates into `["ok", "你"]`. -/
theorem c5_witness :
    (((separate_languages ("你 ok".data)).flatten.filter isNonWs :
        Str) : Multiset Char) =
      ((("你 ok".data).filter isNonWs : Str) : Multiset Char) :=
  c5_conservation ("你 ok".data)

end LyricsProc
